import Mathlib

/-!
Verification development for the `paisanos-cli` repository.

The installation orchestrator of `src/cmd/setup.go` is embedded as a pure
state machine: the Bubble Tea model `setupModel` becomes `SetupModel`, its
`Init`/`Update` methods become pure functions, and the event loop becomes a
small-step transition relation over a pool of pending commands, driven by an
oracle that supplies the result of each external process invocation.

Terminal styling (`lipgloss` style `Render` functions) is modeled as the
identity on the styled text: in the color-free rendering profile the styles
return their argument unchanged, and no property below depends on the ANSI
decoration that other profiles add around the text.
-/

namespace Paisanos

/-! ### Go `strings` helpers (faithful re-implementations) -/

/-- Whether `pre` is a leading run of `l` (`strings.HasPrefix` on rune lists). -/
def listIsPre : List Char → List Char → Bool
  | [], _ => true
  | _ :: _, [] => false
  | a :: as, b :: bs => a == b && listIsPre as bs

/-- `strings.HasPrefix s pre`. -/
def goHasPre (s pre : String) : Bool := listIsPre pre.data s.data

/-- `strings.HasSuffix s suf`. -/
def goHasSuf (s suf : String) : Bool := listIsPre suf.data.reverse s.data.reverse

/-- `strings.Contains s sub`: some position of `s` starts with `sub`. -/
def listHasSub (sub : List Char) : List Char → Bool
  | [] => listIsPre sub []
  | c :: cs => listIsPre sub (c :: cs) || listHasSub sub cs

/-- `strings.Contains s sub`. -/
def goContains (s sub : String) : Bool := listHasSub sub.data s.data

/-- `strings.TrimPrefix s pre`: drop `pre` when it leads `s`, else `s`. -/
def goTrimPre (s pre : String) : String :=
  if goHasPre s pre then ⟨s.data.drop pre.data.length⟩ else s

/-- `strings.TrimSuffix s suf`: drop `suf` when it ends `s`, else `s`. -/
def goTrimSuf (s suf : String) : String :=
  if goHasSuf s suf then ⟨s.data.take (s.data.length - suf.data.length)⟩ else s

/-! ### Styled message builders from `src/cmd/setup.go`

`installing`, `installed` and `skipped` are `lipgloss` foreground styles;
their `Render` is modeled as the identity (see the file comment). -/

def installing (s : String) : String := s

def installed (s : String) : String := s

def skipped (s : String) : String := s

/-- `installingDescription` (setup.go line 58). -/
def installingDescription (pkg : String) : String :=
  installing ("Instalando " ++ pkg ++ "...")

/-- `alreadyInstalled` (setup.go line 62). -/
def alreadyInstalled (pkg : String) : String :=
  skipped ("■ " ++ pkg ++ " ya se encuentra instalado.")

/-- `successfullyInstalled` (setup.go line 178). -/
def successfullyInstalled (pkg : String) : String :=
  installed ("■ " ++ pkg ++ " se instaló correctamente.")

/-! ### The `step` data entity and the orchestrator model -/

/-- Go `step` (setup.go lines 70-74). -/
structure GoStep where
  description : String
  command : String
  args : List String
deriving DecidableEq, Repr, Inhabited

/-- Messages consumed by `(*setupModel).Update`: spinner ticks and
`commandResultMsg{stepIndex, err}`.  A Go `error` is modeled as
`Option String` (its rendered text). -/
inductive Msg where
  | tick
  | result (stepIndex : Nat) (err : Option String)
deriving DecidableEq, Repr

/-- The `tea.Cmd` values this program ever returns from `Init`/`Update`:
the spinner tick command, `runCommand(step, index)`, and `tea.Quit`. -/
inductive TCmd where
  | tick
  | run (s : GoStep) (index : Nat)
  | quit
deriving DecidableEq, Repr

/-- Go `setupModel` (setup.go lines 82-88).  The spinner sub-model is
abstracted to a tick counter; nothing else observes it. -/
structure SetupModel where
  spinnerTicks : Nat
  steps : List GoStep
  currentStep : Nat
  done : Bool
  err : Option String
deriving DecidableEq, Repr

/-- `newSetupModel` (setup.go lines 160-170). -/
def newSetupModel (steps : List GoStep) : SetupModel :=
  { spinnerTicks := 0, steps := steps, currentStep := 0, done := false, err := none }

/-- Result of `Init`: the (possibly mutated) model plus the batched commands. -/
structure InitOut where
  model : SetupModel
  cmds : List TCmd
deriving DecidableEq, Repr

/-- Result of `Update`: the new model, the batched commands, and the lines
printed with `fmt.Println` during the call, in order. -/
structure UpdOut where
  model : SetupModel
  cmds : List TCmd
  prints : List String
deriving DecidableEq, Repr

/-- `(*setupModel).Init` (setup.go lines 90-96). -/
def SetupModel.init (m : SetupModel) : InitOut :=
  if m.steps.length = 0 then
    { model := { m with done := true }, cmds := [] }
  else
    { model := m, cmds := [TCmd.tick, TCmd.run (m.steps.getD m.currentStep default) m.currentStep] }

/-- The lines printed by `Update` on a no-error completion (setup.go lines
115-120): a success line is printed when `prevStep.description` starts with
the literal `"▶ Instalando "` and does not contain `"Homebrew"`. -/
def successPrints (m : SetupModel) : List String :=
  let prevStep := m.steps.getD m.currentStep default
  if goHasPre prevStep.description "▶ Instalando " &&
      !(goContains prevStep.description "Homebrew") then
    [successfullyInstalled
      (goTrimSuf (goTrimPre prevStep.description "▶ Instalando ") "...")]
  else []

/-- `(*setupModel).Update` (setup.go lines 98-130). -/
def SetupModel.update (m : SetupModel) (msg : Msg) : UpdOut :=
  if m.done then { model := m, cmds := [TCmd.quit], prints := [] }
  else
    match msg with
    | .tick =>
        { model := { m with spinnerTicks := m.spinnerTicks + 1 }, cmds := [TCmd.tick], prints := [] }
    | .result _ err =>
        match err with
        | some e => { model := { m with err := some e }, cmds := [TCmd.quit], prints := [] }
        | none =>
            let prints := successPrints m
            let next := m.currentStep + 1
            if next < m.steps.length then
              { model := { m with currentStep := next },
                cmds := [TCmd.run (m.steps.getD next default) next], prints := prints }
            else
              { model := { m with currentStep := next, done := true },
                cmds := [TCmd.quit], prints := prints }

/-! ### `runCommand` and the process-result oracle -/

/-- Environment oracle: for the step launched at index `i`, the result of
`cmd.CombinedOutput()` — the rendered Go error (`none` on success) and the
combined output of the process. -/
structure Oracle where
  res : Nat → Option String × String

/-- The text built by `fmt.Errorf("%q failed: %v (%s)", desc, err, output)`
in `runCommand` (setup.go line 153).  `%q` is modeled as plain double
quoting; none of the descriptions this program builds needs an escape. -/
def cmdFailText (desc errv output : String) : String :=
  "\"" ++ desc ++ "\" failed: " ++ errv ++ " (" ++ output ++ ")"

/-- The message produced when the closure of `runCommand s index`
(setup.go lines 143-158) finishes, given the oracle's process result. -/
def runCommandMsg (o : Oracle) (s : GoStep) (index : Nat) : Msg :=
  match o.res index with
  | (some e, output) => .result index (some (cmdFailText s.description e output))
  | (none, _) => .result index none

/-- The environment of the spawned process (setup.go lines 145-148):
`os.Environ()` plus `NONINTERACTIVE=1` exactly for the Homebrew bootstrap
install step. -/
def commandEnv (baseEnv : List String) (s : GoStep) : List String :=
  if s.description = "Instalando Homebrew..." then baseEnv ++ ["NONINTERACTIVE=1"]
  else baseEnv

/-! ### The Bubble Tea event loop as a transition system

Commands returned by `Init`/`Update` enter a pool of pending background
operations; the runtime delivers their messages in an arbitrary order
(`tea.Batch` runs them concurrently).  Processing `tea.Quit` stops the loop.
Every transition records the observable events it produces. -/

/-- Observable events of one run. -/
inductive Ev where
  | launch (i : Nat)
  | complete (i : Nat) (err : Option String)
  | tick
  | printed (s : String)
  | quit
deriving DecidableEq, Repr

/-- The message a pending command delivers (`tea.Quit` delivers none:
the runtime intercepts it). -/
def msgOfCmd (o : Oracle) : TCmd → Option Msg
  | .tick => some .tick
  | .run s i => some (runCommandMsg o s i)
  | .quit => none

/-- The completion/tick event observed when `Update` receives `msg`. -/
def evOfMsg : Msg → Ev
  | .tick => .tick
  | .result i e => .complete i e

/-- Launch events for the `runCommand` commands in a batch. -/
def launchesOf (cmds : List TCmd) : List Ev :=
  cmds.filterMap fun c =>
    match c with
    | .run _ i => some (.launch i)
    | _ => none

def TCmd.isRun : TCmd → Bool
  | .run _ _ => true
  | _ => false

/-- A step's background operation is "in flight" while its `runCommand`
command sits in the pending pool. -/
def runsPending (p : List TCmd) : List TCmd := p.filter TCmd.isRun

/-- State of the event loop. -/
structure LoopState where
  model : SetupModel
  pending : List TCmd
  stopped : Bool
deriving Repr

/-- One transition of the event loop: either a pending message-producing
command finishes and `Update` processes its message, or a pending
`tea.Quit` stops the loop. -/
inductive LoopStep (o : Oracle) : LoopState → List Ev → LoopState → Prop
  | exec (st : LoopState) (j : Nat) (c : TCmd) (msg : Msg)
      (hc : st.pending.get? j = some c)
      (hm : msgOfCmd o c = some msg)
      (hs : st.stopped = false) :
      LoopStep o st
        (evOfMsg msg :: ((st.model.update msg).prints.map Ev.printed
          ++ launchesOf (st.model.update msg).cmds))
        { model := (st.model.update msg).model,
          pending := st.pending.eraseIdx j ++ (st.model.update msg).cmds,
          stopped := false }
  | execQuit (st : LoopState) (j : Nat)
      (hc : st.pending.get? j = some TCmd.quit)
      (hs : st.stopped = false) :
      LoopStep o st [Ev.quit] { st with stopped := true }

/-- The loop state right after `tea.NewProgram(newSetupModel(steps))` ran
`Init`. -/
def initLoopState (steps : List GoStep) : LoopState :=
  { model := (newSetupModel steps).init.model,
    pending := (newSetupModel steps).init.cmds,
    stopped := false }

/-- The events already produced by `Init` (the launch of step 0, if any). -/
def initTrace (steps : List GoStep) : List Ev :=
  launchesOf (newSetupModel steps).init.cmds

/-- Reachability of a loop state together with its accumulated event trace. -/
inductive Reach (steps : List GoStep) (o : Oracle) : LoopState → List Ev → Prop
  | init : Reach steps o (initLoopState steps) (initTrace steps)
  | step {st tr evs st'} :
      Reach steps o st tr → LoopStep o st evs st' → Reach steps o st' (tr ++ evs)

/-- The run-loop invariant tying a reachable loop state to its trace:
at most one background step operation is pending; a pending operation is
exactly the one for `currentStep` of a live (not done, not failed) model;
after a failure nothing is pending; every launch of step `i + 1` is
preceded in the trace by a no-error completion of step `i`; nothing is
launched after an error completion; and every error completion carries the
text built by `runCommand` from the failing step's description and the
process's combined output. -/
structure Inv (steps : List GoStep) (o : Oracle) (st : LoopState) (tr : List Ev) : Prop where
  steps_eq : st.model.steps = steps
  runs_le : (runsPending st.pending).length ≤ 1
  run_ok : ∀ s i, TCmd.run s i ∈ st.pending →
      i = st.model.currentStep ∧ st.model.done = false ∧ st.model.err = none ∧
      i < steps.length ∧ s = steps.getD i default
  err_norun : st.model.err ≠ none → runsPending st.pending = []
  err_src : ∀ e, st.model.err = some e → ∃ i, Ev.complete i (some e) ∈ tr
  err_rec : ∀ i e, Ev.complete i (some e) ∈ tr → st.model.err ≠ none
  err_content : ∀ i e, Ev.complete i (some e) ∈ tr →
      ∃ ge out, o.res i = (some ge, out) ∧
        e = cmdFailText ((steps.getD i default).description) ge out
  launch_after : ∀ i a b, tr = a ++ Ev.launch (i + 1) :: b → Ev.complete i none ∈ a
  err_stops : ∀ i e a b, tr = a ++ Ev.complete i (some e) :: b → ∀ j, Ev.launch j ∉ b

/-! ### The Plan Builder: `SetupCmd.Run` (setup.go lines 300-491)

The run body is embedded as a pure function of an environment record that
captures every external query the code makes (platform, editor selection,
current user, `exec.LookPath("brew")`, `brew list ...` exit status, the
Google Chrome bundle check, and whether `tea.Program.Run` itself errors). -/

/-- Installation catalogs (setup.go lines 45-55). -/
def normalInstallations : List String := ["neovim", "fnm"]

def caskInstallations : List String := ["figma", "notion", "slack", "google-chrome"]

/-- Environment facts consumed by `SetupCmd.Run`. -/
structure SetupEnv where
  /-- `runtime.GOOS`. -/
  goos : String
  /-- `selectEditor()` returned a non-nil error. -/
  selectEditorError : Bool
  /-- the editor choice string returned by `selectEditor()`. -/
  editorChoice : String
  /-- `user.Current()` returned a non-nil error. -/
  userError : Bool
  /-- `usr.HomeDir`. -/
  homeDir : String
  /-- `exec.LookPath("brew")` succeeded. -/
  brewFound : Bool
  /-- `exec.Command("brew", args...).Run()` returned nil for these args. -/
  brewListOk : List String → Bool
  /-- `fileExists("/Applications/Google Chrome.app")`. -/
  chromeAppExists : Bool
  /-- `tea.NewProgram(m).Run()` returned a non-nil error. -/
  teaRunError : Bool

/-- `strings.ToLower` (ASCII range; every string this program compares the
result against is ASCII). -/
def goToLower (s : String) : String := ⟨s.data.map Char.toLower⟩

/-- The editor-selection switch (setup.go lines 323-331): the triple
`(selectedNeovim, selectedCursor, selectedVSCode)`. -/
def selectedFlags (editorChoice : String) : Bool × Bool × Bool :=
  let lc := goToLower editorChoice
  if lc = "neovim" then (true, false, false)
  else if lc = "cursor.ai" then (false, true, false)
  else if lc = "vscode" then (false, false, true)
  else (false, false, false)

/-- `usr.HomeDir + "/.zprofile"` (setup.go line 343). -/
def profilePath (homeDir : String) : String := homeDir ++ "/.zprofile"

/-- Bootstrap step 1 (setup.go lines 351-358): install Homebrew. -/
def brewInstallStep : GoStep :=
  { description := "Instalando Homebrew...",
    command := "/bin/bash",
    args := ["-c",
      "$(curl -fsSL https://raw.githubusercontent.com/Homebrew/install/HEAD/install.sh)"] }

/-- Bootstrap step 2 (setup.go lines 359-366): append the Homebrew
environment hook to the user's shell profile. -/
def brewProfileStep (pp : String) : GoStep :=
  { description := "Configurando Homebrew...",
    command := "/bin/bash",
    args := ["-c",
      "(echo; echo 'eval \"$(/opt/homebrew/bin/brew shellenv)\"') >> " ++ pp] }

/-- Bootstrap step 3 (setup.go lines 367-371): evaluate the hook. -/
def brewEvalStep : GoStep :=
  { description := "Evaluando entorno de Homebrew...",
    command := "/bin/bash",
    args := ["-c", "eval \"$(/opt/homebrew/bin/brew shellenv)\""] }

/-- The fixed bootstrap triplet, in source order. -/
def bootstrapSteps (pp : String) : List GoStep :=
  [brewInstallStep, brewProfileStep pp, brewEvalStep]

/-- A formula install step appended by the first catalog loop. -/
def formulaStep (pkg : String) : GoStep :=
  { description := installingDescription pkg, command := "brew", args := ["install", pkg] }

/-- A cask install step appended by the second catalog loop. -/
def caskStep (pkg : String) : GoStep :=
  { description := installingDescription pkg, command := "brew",
    args := ["install", "--cask", pkg] }

/-- What plan building accumulates: the ordered steps, the notices printed
with `fmt.Println` during building, and the argument vectors of the `brew`
queries run at build time. -/
structure BuildOut where
  steps : List GoStep
  notices : List String
  queries : List (List String)
deriving DecidableEq, Repr

/-- Componentwise append of build output (one loop iteration's effect). -/
def BuildOut.app (a b : BuildOut) : BuildOut :=
  { steps := a.steps ++ b.steps,
    notices := a.notices ++ b.notices,
    queries := a.queries ++ b.queries }

/-- The body of the formula loop (setup.go lines 377-401) for one package:
the steps appended, notices printed and queries run by that iteration. -/
def normalDelta (env : SetupEnv) (selectedNeovim brewInstalled : Bool) (pkg : String) :
    BuildOut :=
  if pkg = "neovim" && !selectedNeovim then
    { steps := [], notices := ["Omitiendo la instalación de neovim, no se seleccionó."],
      queries := [] }
  else if brewInstalled then
    if env.brewListOk ["list", pkg] then
      { steps := [], notices := [alreadyInstalled pkg], queries := [["list", pkg]] }
    else
      { steps := [formulaStep pkg], notices := [], queries := [["list", pkg]] }
  else
    { steps := [formulaStep pkg], notices := [], queries := [] }

/-- The body of the cask loop (setup.go lines 403-439) for one package. -/
def caskDelta (env : SetupEnv) (brewInstalled : Bool) (pkg : String) : BuildOut :=
  if brewInstalled then
    if pkg = "google-chrome" && env.chromeAppExists then
      { steps := [], notices := [alreadyInstalled pkg], queries := [] }
    else if env.brewListOk ["list", "--cask", pkg] then
      { steps := [], notices := [alreadyInstalled pkg], queries := [["list", "--cask", pkg]] }
    else
      { steps := [caskStep pkg], notices := [], queries := [["list", "--cask", pkg]] }
  else
    { steps := [caskStep pkg], notices := [], queries := [] }

/-- The VSCode install step appended by the editor block. -/
def vscodeStep : GoStep :=
  { description := installingDescription "vscode", command := "brew",
    args := ["install", "--cask", "visual-studio-code"] }

/-- The Cursor install step appended by the editor block. -/
def cursorStep : GoStep :=
  { description := installingDescription "cursor.ai", command := "brew",
    args := ["install", "--cask", "cursor"] }

/-- The VSCode editor block (setup.go lines 442-461). -/
def vscodeDelta (env : SetupEnv) (selectedVSCode brewInstalled : Bool) : BuildOut :=
  if selectedVSCode then
    if brewInstalled then
      if env.brewListOk ["list", "--cask", "visual-studio-code"] then
        { steps := [], notices := [alreadyInstalled "vscode"],
          queries := [["list", "--cask", "visual-studio-code"]] }
      else
        { steps := [vscodeStep], notices := [],
          queries := [["list", "--cask", "visual-studio-code"]] }
    else
      { steps := [vscodeStep], notices := [], queries := [] }
  else { steps := [], notices := [], queries := [] }

/-- The Cursor editor block (setup.go lines 463-481). -/
def cursorDelta (env : SetupEnv) (selectedCursor brewInstalled : Bool) : BuildOut :=
  if selectedCursor then
    if brewInstalled then
      if env.brewListOk ["list", "--cask", "cursor"] then
        { steps := [], notices := [alreadyInstalled "cursor.ai"],
          queries := [["list", "--cask", "cursor"]] }
      else
        { steps := [cursorStep], notices := [], queries := [["list", "--cask", "cursor"]] }
    else
      { steps := [cursorStep], notices := [], queries := [] }
  else { steps := [], notices := [], queries := [] }

/-- The empty accumulated build output. -/
def emptyBuild : BuildOut := { steps := [], notices := [], queries := [] }

/-- The Homebrew presence branch (setup.go lines 348-375): either the
bootstrap triplet, or the "already installed" notice. -/
def buildStart (env : SetupEnv) : BuildOut :=
  if env.brewFound then
    { steps := [],
      notices := ["Homebrew ya se encuentra instalada, saltando instalación."],
      queries := [] }
  else
    { steps := bootstrapSteps (profilePath env.homeDir), notices := [], queries := [] }

/-- The catalog-driven part of plan building (setup.go lines 377-481): the
formula loop, the cask loop, then the two editor blocks, in source order. -/
def buildDeltas (env : SetupEnv) : BuildOut :=
  let flags := selectedFlags env.editorChoice
  let selectedNeovim := flags.1
  let selectedCursor := flags.2.1
  let selectedVSCode := flags.2.2
  let brewInstalled := env.brewFound
  let afterNormal :=
    normalInstallations.foldl
      (fun acc pkg => acc.app (normalDelta env selectedNeovim brewInstalled pkg)) emptyBuild
  let afterCask :=
    caskInstallations.foldl
      (fun acc pkg => acc.app (caskDelta env brewInstalled pkg)) afterNormal
  ((afterCask.app (vscodeDelta env selectedVSCode brewInstalled)).app
    (cursorDelta env selectedCursor brewInstalled))

/-- Plan building (setup.go lines 345-481): the Homebrew presence check and
bootstrap prepend, followed by the catalog loops and editor blocks.  The
steps, notices and queries appear in exactly the order the source produces
them. -/
def buildSetup (env : SetupEnv) : BuildOut :=
  (buildStart env).app (buildDeltas env)

/-- Observable outcome of `SetupCmd.Run` at the process level. -/
structure SetupResult where
  exitCode : Nat
  planBuilt : Bool
deriving DecidableEq, Repr

/-- The control flow of `SetupCmd.Run` around plan building (setup.go lines
301-320, 337-342, 483-490): every early `return` lets the process finish
with status 0; `os.Exit(1)` fires only when `tea.Program.Run` itself
errors.  `planBuilt` records whether the plan-building section was
reached. -/
def setupCmdRun (env : SetupEnv) : SetupResult :=
  if env.goos ≠ "darwin" then { exitCode := 0, planBuilt := false }
  else if env.selectEditorError then { exitCode := 0, planBuilt := false }
  else if env.editorChoice = "" then { exitCode := 0, planBuilt := false }
  else if env.userError then { exitCode := 0, planBuilt := false }
  else if env.teaRunError then { exitCode := 1, planBuilt := true }
  else { exitCode := 0, planBuilt := true }

/-! ### Editor flag (`src/cmd/flags/editor.go`) -/

/-- `AllowedEditors` (editor.go line 19). -/
def AllowedEditors : List String := ["vscode", "nvim", "cursor", "xcode", "none"]

/-- The error text built by `(*Editor).Set` for a rejected value
(editor.go line 35). -/
def editorSetErrText : String :=
  "Editor to use. Allowed values: " ++ String.intercalate ", " AllowedEditors

/-- `(*Editor).Set` (editor.go lines 29-36): the new receiver value and the
returned error. -/
def editorSet (current value : String) : String × Option String :=
  if AllowedEditors.contains value then (value, none)
  else (current, some editorSetErrText)

/-! ### Package-manager idempotency checker
(`downloadAndInstall`, packageManager.go) -/

inductive BrewPackageType where
  | formula
  | cask
deriving DecidableEq, Repr

/-- `Package` (packageManager.go). -/
structure Package where
  displayName : String
  brewName : String
  kind : BrewPackageType
  disabled : Bool
deriving DecidableEq, Repr

/-- The message `downloadAndInstall` returns. -/
inductive PkgMsg where
  | empty
  | skippedPkg (s : String)
  | installedPkg (s : String)
  | installError (pkg : Package) (errv output : String)
deriving DecidableEq, Repr

/-- Environment facts consumed by `downloadAndInstall`. -/
structure PkgEnv where
  /-- `os.Stat("/Applications/Google Chrome.app")` returned nil. -/
  chromeAppExists : Bool
  /-- `exec.Command("brew", args...).Run()` returned nil. -/
  runOk : List String → Bool
  /-- `installCmd.CombinedOutput()` for `brew args...`: the rendered error
  (`none` on success) and the combined output. -/
  combinedOutput : List String → Option String × String

/-- `downloadAndInstall` (packageManager.go): the `brew` invocations it
performs, in order, and the message it returns. -/
def downloadAndInstall (env : PkgEnv) (pkg : Package) : List (List String) × PkgMsg :=
  if pkg.disabled then ([], .empty)
  else if pkg.brewName = "google-chrome" && env.chromeAppExists then
    ([], .skippedPkg pkg.brewName)
  else
    let args := ["list"] ++ (if pkg.kind = .cask then ["--cask"] else []) ++ [pkg.brewName]
    if env.runOk args then ([args], .skippedPkg pkg.brewName)
    else
      let installArgs :=
        ["install"] ++ (if pkg.kind = .cask then ["--cask"] else []) ++ [pkg.brewName]
      match env.combinedOutput installArgs with
      | (some e, output) => ([args, installArgs], .installError pkg e output)
      | (none, _) => ([args, installArgs], .installedPkg pkg.brewName)

/-! ### Concrete sample inputs used by witnesses and counterexamples -/

/-- An environment in which every process succeeds with empty output. -/
def demoOracle : Oracle := ⟨fun _ => (none, "")⟩

/-- An oracle whose step 0 fails with output `"boom"`. -/
def failOracle : Oracle := ⟨fun _ => (some "exit status 1", "boom")⟩

/-- A one-step demo plan. -/
def demoSteps : List GoStep := [formulaStep "fnm"]

/-- A demo environment: macOS, VSCode chosen, Homebrew absent. -/
def demoEnv : SetupEnv :=
  { goos := "darwin", selectEditorError := false, editorChoice := "vscode",
    userError := false, homeDir := "/Users/x", brewFound := false,
    brewListOk := fun _ => false, chromeAppExists := false, teaRunError := false }

/-- A demo environment with Homebrew present and everything installed. -/
def demoEnvAllSat : SetupEnv :=
  { demoEnv with brewFound := true, brewListOk := fun _ => true, chromeAppExists := true }

/-- A demo environment with Homebrew present and nothing installed. -/
def demoEnvBrewNone : SetupEnv :=
  { demoEnv with brewFound := true }

/-- The model state right before the completion of a catalog-driven install
step for `neovim` (the C7 failing input). -/
def c7Model : SetupModel :=
  { spinnerTicks := 0, steps := [formulaStep "neovim"], currentStep := 0,
    done := false, err := none }

/-- The C8 counterexample environment: an unsupported platform. -/
def c8CexEnv : SetupEnv := { demoEnv with goos := "linux" }

/-- A demo cask package for `downloadAndInstall`. -/
def demoPkg : Package :=
  { displayName := "Figma", brewName := "figma", kind := .cask, disabled := false }

/-- A demo environment for `downloadAndInstall`: nothing installed, install
succeeds. -/
def demoPkgEnv : PkgEnv :=
  { chromeAppExists := false, runOk := fun _ => false,
    combinedOutput := fun _ => (none, "") }

/-- A demo inherited process environment. -/
def demoBaseEnv : List String := ["PATH=/usr/bin:/bin"]

/-- The message delivered by the failing demo step. -/
def c2Msg : Msg := runCommandMsg failOracle (formulaStep "fnm") 0

/-- The error text `runCommand` builds for the failing demo step. -/
def c2ErrText : String :=
  cmdFailText (installingDescription "fnm") "exit status 1" "boom"

/-- The loop state after the demo step's failure is processed. -/
def c2State : LoopState :=
  { model := ((initLoopState demoSteps).model.update c2Msg).model,
    pending := (initLoopState demoSteps).pending.eraseIdx 1 ++
      ((initLoopState demoSteps).model.update c2Msg).cmds,
    stopped := false }

/-- The trace after the demo step's failure is processed. -/
def c2Trace : List Ev :=
  initTrace demoSteps ++
    (evOfMsg c2Msg :: (((initLoopState demoSteps).model.update c2Msg).prints.map Ev.printed
      ++ launchesOf ((initLoopState demoSteps).model.update c2Msg).cmds))

/-! ### List helper lemmas -/

theorem take_cons_drop {α : Type} {l : List α} {j : Nat} {c : α}
    (h : l.get? j = some c) : l.take j ++ c :: l.drop (j + 1) = l := by
  induction l generalizing j with
  | nil => simp at h
  | cons x xs ih =>
    cases j with
    | zero =>
      simp only [List.get?] at h
      cases h
      simp
    | succ n =>
      simp only [List.get?] at h
      simpa using ih h

theorem split_chunk {α : Type} {tr evs a b : List α} {x : α} (h : tr ++ evs = a ++ x :: b) :
    (∃ b₁, tr = a ++ x :: b₁ ∧ b = b₁ ++ evs) ∨
    (∃ a₂, a = tr ++ a₂ ∧ evs = a₂ ++ x :: b) := by
  rcases List.append_eq_append_iff.mp h with ⟨a', ha, hb⟩ | ⟨c', hc, hd⟩
  · right; exact ⟨a', ha, hb⟩
  · cases c' with
    | nil =>
      right
      refine ⟨[], by simpa using hc.symm, ?_⟩
      simpa using hd.symm
    | cons y c'' =>
      left
      obtain ⟨rfl, hb⟩ : y = x ∧ b = c'' ++ evs := by
        cases hd
        exact ⟨rfl, rfl⟩
      exact ⟨c'', by rw [hc], hb⟩

/-! ### `runsPending` lemmas -/

theorem runsPending_append (p q : List TCmd) :
    runsPending (p ++ q) = runsPending p ++ runsPending q := by
  simp [runsPending, List.filter_append]

theorem mem_runsPending {s : GoStep} {i : Nat} {p : List TCmd}
    (h : TCmd.run s i ∈ p) : TCmd.run s i ∈ runsPending p :=
  List.mem_filter.mpr ⟨h, rfl⟩

theorem not_run_mem_of_runsPending_nil {s : GoStep} {i : Nat} {p : List TCmd}
    (h : runsPending p = []) : TCmd.run s i ∉ p := by
  intro hm
  have := mem_runsPending hm
  rw [h] at this
  exact absurd this (List.not_mem_nil _)

theorem runsPending_eraseIdx_of_run {p : List TCmd} {j : Nat} {s : GoStep} {i : Nat}
    (hget : p.get? j = some (TCmd.run s i)) (hle : (runsPending p).length ≤ 1) :
    runsPending (p.eraseIdx j) = [] := by
  have hdec := take_cons_drop hget
  have h1 : runsPending p =
      runsPending (p.take j) ++ TCmd.run s i :: runsPending (p.drop (j + 1)) := by
    conv_lhs => rw [← hdec]
    rw [runsPending_append]
    simp [runsPending, List.filter, TCmd.isRun]
  rw [h1] at hle
  simp only [List.length_append, List.length_cons] at hle
  have ht : runsPending (p.take j) = [] := List.length_eq_zero.mp (by omega)
  have hd : runsPending (p.drop (j + 1)) = [] := List.length_eq_zero.mp (by omega)
  rw [List.eraseIdx_eq_take_drop_succ, runsPending_append, ht, hd]
  rfl

theorem runsPending_eraseIdx_le {p : List TCmd} {j : Nat} {c : TCmd}
    (hget : p.get? j = some c) :
    (runsPending (p.eraseIdx j)).length ≤ (runsPending p).length := by
  have hdec := take_cons_drop hget
  rw [List.eraseIdx_eq_take_drop_succ, runsPending_append]
  conv_rhs => rw [← hdec]
  rw [runsPending_append]
  simp only [List.length_append]
  have : (runsPending (c :: p.drop (j + 1))).length =
      (runsPending [c]).length + (runsPending (p.drop (j + 1))).length := by
    have : (c :: p.drop (j + 1)) = [c] ++ p.drop (j + 1) := rfl
    rw [this, runsPending_append, List.length_append]
  omega

theorem mem_eraseIdx {α : Type} {p : List α} {j : Nat} {c x : α}
    (hget : p.get? j = some c) (h : x ∈ p.eraseIdx j) : x ∈ p := by
  have hdec := take_cons_drop hget
  rw [List.eraseIdx_eq_take_drop_succ] at h
  rw [← hdec]
  rcases List.mem_append.mp h with h | h
  · exact List.mem_append.mpr (Or.inl h)
  · exact List.mem_append.mpr (Or.inr (List.mem_cons_of_mem _ h))

/-! ### `Update` characterization lemmas -/

theorem update_of_done {m : SetupModel} {msg : Msg} (h : m.done = true) :
    m.update msg = ⟨m, [TCmd.quit], []⟩ := by
  simp [SetupModel.update, h]

theorem update_tick {m : SetupModel} (h : m.done = false) :
    m.update .tick = ⟨{ m with spinnerTicks := m.spinnerTicks + 1 }, [TCmd.tick], []⟩ := by
  simp [SetupModel.update, h]

theorem update_errmsg {m : SetupModel} {i : Nat} {e : String} (h : m.done = false) :
    m.update (.result i (some e)) = ⟨{ m with err := some e }, [TCmd.quit], []⟩ := by
  simp [SetupModel.update, h]

theorem update_ok_mid {m : SetupModel} {i : Nat} (h : m.done = false)
    (h2 : m.currentStep + 1 < m.steps.length) :
    m.update (.result i none) =
      ⟨{ m with currentStep := m.currentStep + 1 },
       [TCmd.run (m.steps.getD (m.currentStep + 1) default) (m.currentStep + 1)],
       successPrints m⟩ := by
  simp [SetupModel.update, h, h2]

theorem update_ok_last {m : SetupModel} {i : Nat} (h : m.done = false)
    (h2 : ¬ m.currentStep + 1 < m.steps.length) :
    m.update (.result i none) =
      ⟨{ m with currentStep := m.currentStep + 1, done := true },
       [TCmd.quit], successPrints m⟩ := by
  simp [SetupModel.update, h, h2]

theorem launchesOf_quit : launchesOf [TCmd.quit] = [] := rfl

theorem launchesOf_tick : launchesOf [TCmd.tick] = [] := rfl

theorem launchesOf_run (s : GoStep) (i : Nat) :
    launchesOf [TCmd.run s i] = [Ev.launch i] := rfl

/-! ### Trace-property extension lemmas -/

theorem launch_after_extend {tr evs : List Ev}
    (ha : ∀ i a b, tr = a ++ Ev.launch (i + 1) :: b → Ev.complete i none ∈ a)
    (hn : ∀ k, Ev.launch k ∉ evs) :
    ∀ i a b, tr ++ evs = a ++ Ev.launch (i + 1) :: b → Ev.complete i none ∈ a := by
  intro i a b hsplit
  rcases split_chunk hsplit with ⟨b₁, htr, _⟩ | ⟨a₂, _, hevs⟩
  · exact ha i a b₁ htr
  · exact absurd (by rw [hevs]; exact List.mem_append_right _ (List.mem_cons_self _ _))
      (hn (i + 1))

theorem err_stops_extend {tr evs : List Ev}
    (hstops : ∀ i e a b, tr = a ++ Ev.complete i (some e) :: b → ∀ j, Ev.launch j ∉ b)
    (hnc : ∀ i e, Ev.complete i (some e) ∉ evs)
    (hnl : ∀ k, Ev.launch k ∉ evs) :
    ∀ i e a b, tr ++ evs = a ++ Ev.complete i (some e) :: b → ∀ j, Ev.launch j ∉ b := by
  intro i e a b hsplit j
  rcases split_chunk hsplit with ⟨b₁, htr, hb⟩ | ⟨a₂, _, hevs⟩
  · rw [hb]
    intro hmem
    rcases List.mem_append.mp hmem with h | h
    · exact hstops i e a b₁ htr j h
    · exact hnl j h
  · exact absurd (by rw [hevs]; exact List.mem_append_right _ (List.mem_cons_self _ _))
      (hnc i e)

/-! ### Pointwise facts about `Update` on a spinner tick -/

theorem update_tick_model (m : SetupModel) :
    (m.update .tick).model.steps = m.steps ∧
    (m.update .tick).model.currentStep = m.currentStep ∧
    (m.update .tick).model.done = m.done ∧
    (m.update .tick).model.err = m.err := by
  cases hd : m.done <;> simp [SetupModel.update, hd]

theorem update_tick_cmds_runs (m : SetupModel) :
    runsPending (m.update .tick).cmds = [] := by
  cases hd : m.done <;> simp [SetupModel.update, hd, runsPending, List.filter, TCmd.isRun]

theorem update_tick_cmds_launches (m : SetupModel) :
    launchesOf (m.update .tick).cmds = [] := by
  cases hd : m.done <;> simp [SetupModel.update, hd, launchesOf]

theorem update_tick_prints (m : SetupModel) :
    (m.update .tick).prints = [] := by
  cases hd : m.done <;> simp [SetupModel.update, hd]

/-! ### The run-loop invariant holds at initialization and is preserved -/

theorem inv_init {steps : List GoStep} {o : Oracle} :
    Inv steps o (initLoopState steps) (initTrace steps) := by
  by_cases h0 : steps.length = 0
  · have hI : initLoopState steps =
        { model := { spinnerTicks := 0, steps := steps, currentStep := 0,
                     done := true, err := none },
          pending := [], stopped := false } := by
      simp [initLoopState, SetupModel.init, newSetupModel, h0]
    have hT : initTrace steps = [] := by
      simp [initTrace, SetupModel.init, newSetupModel, h0, launchesOf]
    rw [hI, hT]
    refine ⟨rfl, by simp [runsPending], ?_, ?_, ?_, ?_, ?_, ?_, ?_⟩
    · intro s i h
      simp at h
    · intro _
      simp [runsPending]
    · intro e he
      simp at he
    · intro i e h
      simp at h
    · intro i e h
      simp at h
    · intro i a b h
      exact absurd h (by simp)
    · intro i e a b h
      exact absurd h (by simp)
  · have hI : initLoopState steps =
        { model := newSetupModel steps,
          pending := [TCmd.tick, TCmd.run (steps.getD 0 default) 0],
          stopped := false } := by
      simp [initLoopState, SetupModel.init, newSetupModel, h0]
    have hT : initTrace steps = [Ev.launch 0] := by
      simp [initTrace, SetupModel.init, newSetupModel, h0, launchesOf]
    rw [hI, hT]
    refine ⟨rfl, ?_, ?_, ?_, ?_, ?_, ?_, ?_, ?_⟩
    · simp [runsPending, List.filter, TCmd.isRun]
    · intro s i h
      simp only [List.mem_cons, List.not_mem_nil, or_false] at h
      rcases h with h | h
      · exact absurd h (by simp)
      · obtain ⟨rfl, rfl⟩ : s = steps.getD 0 default ∧ i = 0 := by
          cases h
          exact ⟨rfl, rfl⟩
        exact ⟨rfl, rfl, rfl, Nat.pos_of_ne_zero h0, rfl⟩
    · intro h
      exact absurd rfl h
    · intro e he
      simp [newSetupModel] at he
    · intro i e h
      simp at h
    · intro i e h
      simp at h
    · intro i a b h
      have hm : Ev.launch (i + 1) ∈ [Ev.launch 0] := by
        rw [h]
        exact List.mem_append_right _ (List.mem_cons_self _ _)
      simp at hm
    · intro i e a b h
      have hm : Ev.complete i (some e) ∈ [Ev.launch 0] := by
        rw [h]
        exact List.mem_append_right _ (List.mem_cons_self _ _)
      simp at hm

theorem inv_step {steps : List GoStep} {o : Oracle} {st : LoopState} {tr evs : List Ev}
    {st' : LoopState} (ih : Inv steps o st tr) (hstep : LoopStep o st evs st') :
    Inv steps o st' (tr ++ evs) := by
  cases hstep with
  | execQuit j hc hs =>
      refine ⟨ih.steps_eq, ih.runs_le, ih.run_ok, ih.err_norun, ?_, ?_, ?_, ?_, ?_⟩
      · intro e he
        obtain ⟨i, hi⟩ := ih.err_src e he
        exact ⟨i, List.mem_append_left _ hi⟩
      · intro i e hmem
        rcases List.mem_append.mp hmem with h | h
        · exact ih.err_rec i e h
        · simp at h
      · intro i e hmem
        rcases List.mem_append.mp hmem with h | h
        · exact ih.err_content i e h
        · simp at h
      · exact launch_after_extend ih.launch_after (by intro k; simp)
      · exact err_stops_extend ih.err_stops (by intro i e; simp) (by intro k; simp)
  | exec j c msg hc hm hs =>
      cases c with
      | quit => simp [msgOfCmd] at hm
      | tick =>
          obtain rfl : msg = Msg.tick := by simpa [msgOfCmd] using hm.symm
          obtain ⟨hms, hmc, hmd, hme⟩ := update_tick_model st.model
          have hruns := update_tick_cmds_runs st.model
          have hlaunch := update_tick_cmds_launches st.model
          have hpr := update_tick_prints st.model
          have hevs :
              (evOfMsg Msg.tick :: ((st.model.update Msg.tick).prints.map Ev.printed
                ++ launchesOf (st.model.update Msg.tick).cmds)) = [Ev.tick] := by
            rw [hpr, hlaunch]
            rfl
          rw [hevs]
          refine ⟨?_, ?_, ?_, ?_, ?_, ?_, ?_, ?_, ?_⟩
          · rw [hms]
            exact ih.steps_eq
          · rw [runsPending_append, hruns, List.append_nil]
            exact le_trans (runsPending_eraseIdx_le hc) ih.runs_le
          · intro s i hmem
            rcases List.mem_append.mp hmem with h | h
            · obtain ⟨h1, h2, h3, h4, h5⟩ := ih.run_ok s i (mem_eraseIdx hc h)
              exact ⟨by rw [hmc]; exact h1, by rw [hmd]; exact h2,
                by rw [hme]; exact h3, h4, h5⟩
            · exact absurd h (not_run_mem_of_runsPending_nil hruns)
          · intro hne
            rw [hme] at hne
            have hnil := ih.err_norun hne
            have hle := runsPending_eraseIdx_le hc (p := st.pending) (j := j)
            rw [hnil] at hle
            simp only [List.length_nil, Nat.le_zero] at hle
            rw [runsPending_append, hruns, List.append_nil]
            exact List.length_eq_zero.mp hle
          · intro e he
            rw [hme] at he
            obtain ⟨i, hi⟩ := ih.err_src e he
            exact ⟨i, List.mem_append_left _ hi⟩
          · intro i e hmem
            rw [hme]
            rcases List.mem_append.mp hmem with h | h
            · exact ih.err_rec i e h
            · simp at h
          · intro i e hmem
            rcases List.mem_append.mp hmem with h | h
            · exact ih.err_content i e h
            · simp at h
          · exact launch_after_extend ih.launch_after (by intro k; simp)
          · exact err_stops_extend ih.err_stops (by intro i e; simp) (by intro k; simp)
      | run s i =>
          have hmem0 : TCmd.run s i ∈ st.pending := List.get?_mem hc
          obtain ⟨hi, hdone, herr, hlt, hsi⟩ := ih.run_ok s i hmem0
          have hsteps := ih.steps_eq
          obtain rfl : msg = runCommandMsg o s i := by simpa [msgOfCmd] using hm.symm
          have herasenil : runsPending (st.pending.eraseIdx j) = [] :=
            runsPending_eraseIdx_of_run hc ih.runs_le
          have hnctr : ∀ i' e', Ev.complete i' (some e') ∉ tr := by
            intro i' e' hmem
            exact (ih.err_rec i' e' hmem) herr
          rcases hres : o.res i with ⟨er, out⟩
          cases er with
          | some ge =>
              have hrun : runCommandMsg o s i =
                  Msg.result i (some (cmdFailText s.description ge out)) := by
                simp [runCommandMsg, hres]
              rw [hrun, update_errmsg hdone]
              refine ⟨hsteps, ?_, ?_, ?_, ?_, ?_, ?_, ?_, ?_⟩
              · rw [runsPending_append, herasenil]
                simp [runsPending, List.filter, TCmd.isRun]
              · intro s' i' hmem
                rcases List.mem_append.mp hmem with h | h
                · exact absurd h (not_run_mem_of_runsPending_nil herasenil)
                · simp at h
              · intro _
                rw [runsPending_append, herasenil]
                simp [runsPending, List.filter, TCmd.isRun]
              · intro e he
                simp only [Option.some_inj] at he
                refine ⟨i, List.mem_append_right _ ?_⟩
                rw [← he]
                simp [evOfMsg]
              · intro i' e' _
                simp
              · intro i' e' hmem
                rcases List.mem_append.mp hmem with h | h
                · exact ih.err_content i' e' h
                · simp only [evOfMsg, List.map_nil, List.nil_append, launchesOf_quit,
                    List.append_nil, List.mem_singleton] at h
                  obtain ⟨rfl, rfl⟩ : i' = i ∧ e' = cmdFailText s.description ge out := by
                    cases h
                    exact ⟨rfl, rfl⟩
                  exact ⟨ge, out, hres, by rw [← hsi]⟩
              · exact launch_after_extend ih.launch_after (by intro k; simp [evOfMsg, launchesOf])
              · intro i' e' a b hsplit k
                rcases split_chunk hsplit with ⟨b₁, htr, _⟩ | ⟨a₂, _, hevs⟩
                · have hmem2 : Ev.complete i' (some e') ∈ tr := by
                    rw [htr]
                    exact List.mem_append_right _ (List.mem_cons_self _ _)
                  exact absurd hmem2 (hnctr i' e')
                · simp only [evOfMsg, List.map_nil, List.nil_append, launchesOf_quit,
                    List.append_nil] at hevs
                  cases a₂ with
                  | nil =>
                      simp only [List.nil_append, List.cons.injEq] at hevs
                      rw [hevs.2.symm]
                      simp
                  | cons y a₂' =>
                      simp only [List.cons_append, List.cons.injEq] at hevs
                      exact absurd hevs.2.symm (by simp)
          | none =>
              have hrun : runCommandMsg o s i = Msg.result i none := by
                simp [runCommandMsg, hres]
              rw [hrun]
              by_cases h2 : st.model.currentStep + 1 < st.model.steps.length
              · rw [update_ok_mid hdone h2]
                refine ⟨hsteps, ?_, ?_, ?_, ?_, ?_, ?_, ?_, ?_⟩
                · rw [runsPending_append, herasenil]
                  simp [runsPending, List.filter, TCmd.isRun]
                · intro s' i' hmem
                  rcases List.mem_append.mp hmem with h | h
                  · exact absurd h (not_run_mem_of_runsPending_nil herasenil)
                  · simp only [List.mem_singleton] at h
                    obtain ⟨rfl, rfl⟩ :
                        s' = st.model.steps.getD (st.model.currentStep + 1) default ∧
                        i' = st.model.currentStep + 1 := by
                      cases h
                      exact ⟨rfl, rfl⟩
                    refine ⟨rfl, hdone, herr, ?_, ?_⟩
                    · rw [← hsteps]
                      exact h2
                    · rw [← hsteps]
                · intro hne
                  exact absurd herr hne
                · intro e he
                  rw [herr] at he
                  cases he
                · intro i' e' hmem
                  rcases List.mem_append.mp hmem with h | h
                  · exact absurd h (hnctr i' e')
                  · simp [evOfMsg, launchesOf] at h
                · intro i' e' hmem
                  rcases List.mem_append.mp hmem with h | h
                  · exact absurd h (hnctr i' e')
                  · simp [evOfMsg, launchesOf] at h
                · intro k a b hsplit
                  rcases split_chunk hsplit with ⟨b₁, htr, _⟩ | ⟨a₂, ha2, hevs⟩
                  · exact ih.launch_after k a b₁ htr
                  · simp only [evOfMsg, launchesOf_run] at hevs
                    cases a₂ with
                    | nil =>
                        simp only [List.nil_append, List.cons.injEq] at hevs
                        exact absurd hevs.1 (by simp)
                    | cons y a₂' =>
                        simp only [List.cons_append, List.cons.injEq] at hevs
                        obtain ⟨hy, hrest⟩ := hevs
                        have hkmem : Ev.launch (k + 1) ∈
                            (successPrints st.model).map Ev.printed ++
                              [Ev.launch (st.model.currentStep + 1)] := by
                          rw [hrest]
                          exact List.mem_append_right _ (List.mem_cons_self _ _)
                        have hk : k = st.model.currentStep := by
                          rcases List.mem_append.mp hkmem with h | h
                          · simp [List.mem_map] at h
                          · simp only [List.mem_singleton, Ev.launch.injEq] at h
                            omega
                        rw [ha2, hk, ← hi, ← hy]
                        exact List.mem_append_right _ (List.mem_cons_self _ _)
                · intro i' e' a b hsplit k
                  rcases split_chunk hsplit with ⟨b₁, htr, _⟩ | ⟨a₂, _, hevs⟩
                  · have hmem2 : Ev.complete i' (some e') ∈ tr := by
                      rw [htr]
                      exact List.mem_append_right _ (List.mem_cons_self _ _)
                    exact absurd hmem2 (hnctr i' e')
                  · have : Ev.complete i' (some e') ∈
                        evOfMsg (Msg.result i none) ::
                          ((successPrints st.model).map Ev.printed ++
                            launchesOf [TCmd.run
                              (st.model.steps.getD (st.model.currentStep + 1) default)
                              (st.model.currentStep + 1)]) := by
                      rw [hevs]
                      exact List.mem_append_right _ (List.mem_cons_self _ _)
                    simp [evOfMsg, launchesOf, List.mem_map] at this
              · rw [update_ok_last hdone h2]
                refine ⟨hsteps, ?_, ?_, ?_, ?_, ?_, ?_, ?_, ?_⟩
                · rw [runsPending_append, herasenil]
                  simp [runsPending, List.filter, TCmd.isRun]
                · intro s' i' hmem
                  rcases List.mem_append.mp hmem with h | h
                  · exact absurd h (not_run_mem_of_runsPending_nil herasenil)
                  · simp at h
                · intro _
                  rw [runsPending_append, herasenil]
                  simp [runsPending, List.filter, TCmd.isRun]
                · intro e he
                  rw [herr] at he
                  cases he
                · intro i' e' hmem
                  rcases List.mem_append.mp hmem with h | h
                  · exact absurd h (hnctr i' e')
                  · simp [evOfMsg, launchesOf, List.mem_map] at h
                · intro i' e' hmem
                  rcases List.mem_append.mp hmem with h | h
                  · exact absurd h (hnctr i' e')
                  · simp [evOfMsg, launchesOf, List.mem_map] at h
                · refine launch_after_extend ih.launch_after ?_
                  intro k
                  simp [evOfMsg, launchesOf, List.mem_map]
                · refine err_stops_extend ih.err_stops ?_ ?_
                  · intro i' e'
                    simp [evOfMsg, launchesOf, List.mem_map]
                  · intro k
                    simp [evOfMsg, launchesOf, List.mem_map]

/-- Every reachable loop state and trace satisfies the invariant. -/
theorem reach_inv {steps : List GoStep} {o : Oracle} {st : LoopState} {tr : List Ev}
    (h : Reach steps o st tr) : Inv steps o st tr := by
  induction h with
  | init => exact inv_init
  | step h1 h2 ih => exact inv_step ih h2

/-! ### Plan Builder decomposition lemmas -/

theorem steps_app (a b : BuildOut) : (a.app b).steps = a.steps ++ b.steps := rfl

theorem notices_app (a b : BuildOut) : (a.app b).notices = a.notices ++ b.notices := rfl

theorem mem_notices_app_left {a b : BuildOut} {n : String} (h : n ∈ a.notices) :
    n ∈ (a.app b).notices := List.mem_append_left _ h

theorem mem_notices_app_right {a b : BuildOut} {n : String} (h : n ∈ b.notices) :
    n ∈ (a.app b).notices := List.mem_append_right _ h

theorem mem_steps_buildStart {env : SetupEnv} {s : GoStep}
    (h : s ∈ (buildStart env).steps) :
    env.brewFound = false ∧ s ∈ bootstrapSteps (profilePath env.homeDir) := by
  unfold buildStart at h
  split_ifs at h with h1
  · simp at h
  · exact ⟨by simpa using h1, h⟩

theorem mem_steps_normalDelta {env : SetupEnv} {sel bi : Bool} {pkg : String} {s : GoStep}
    (h : s ∈ (normalDelta env sel bi pkg).steps) :
    s = formulaStep pkg ∧ (bi = true → env.brewListOk ["list", pkg] = false) := by
  unfold normalDelta at h
  split_ifs at h with h1 h2 h3
  · simp at h
  · simp at h
  · simp only [List.mem_singleton] at h
    exact ⟨h, fun _ => by simpa using h3⟩
  · simp only [List.mem_singleton] at h
    exact ⟨h, fun hbi => absurd hbi (by simpa using h2)⟩

theorem mem_steps_caskDelta {env : SetupEnv} {bi : Bool} {pkg : String} {s : GoStep}
    (h : s ∈ (caskDelta env bi pkg).steps) :
    s = caskStep pkg ∧
    (bi = true → env.brewListOk ["list", "--cask", pkg] = false ∧
      (pkg = "google-chrome" → env.chromeAppExists = false)) := by
  unfold caskDelta at h
  split_ifs at h with h1 h2 h3
  · simp at h
  · simp at h
  · simp only [List.mem_singleton] at h
    refine ⟨h, fun _ => ⟨by simpa using h3, fun hpkg => ?_⟩⟩
    simp only [hpkg, decide_True, Bool.true_and, Bool.not_eq_true] at h2
    simpa using h2
  · simp only [List.mem_singleton] at h
    exact ⟨h, fun hbi => absurd hbi (by simpa using h1)⟩

theorem mem_steps_vscodeDelta {env : SetupEnv} {sel bi : Bool} {s : GoStep}
    (h : s ∈ (vscodeDelta env sel bi).steps) :
    s = vscodeStep ∧ sel = true ∧
    (bi = true → env.brewListOk ["list", "--cask", "visual-studio-code"] = false) := by
  unfold vscodeDelta at h
  split_ifs at h with h1 h2 h3
  · simp at h
  · simp only [List.mem_singleton] at h
    exact ⟨h, h1, fun _ => by simpa using h3⟩
  · simp only [List.mem_singleton] at h
    exact ⟨h, h1, fun hbi => absurd hbi (by simpa using h2)⟩
  · simp at h

theorem mem_steps_cursorDelta {env : SetupEnv} {sel bi : Bool} {s : GoStep}
    (h : s ∈ (cursorDelta env sel bi).steps) :
    s = cursorStep ∧ sel = true ∧
    (bi = true → env.brewListOk ["list", "--cask", "cursor"] = false) := by
  unfold cursorDelta at h
  split_ifs at h with h1 h2 h3
  · simp at h
  · simp only [List.mem_singleton] at h
    exact ⟨h, h1, fun _ => by simpa using h3⟩
  · simp only [List.mem_singleton] at h
    exact ⟨h, h1, fun hbi => absurd hbi (by simpa using h2)⟩
  · simp at h

/-- `buildDeltas` unfolded to the chain of per-entry contributions. -/
theorem buildDeltas_eq (env : SetupEnv) :
    buildDeltas env =
      ((((((((emptyBuild.app
        (normalDelta env (selectedFlags env.editorChoice).1 env.brewFound "neovim")).app
        (normalDelta env (selectedFlags env.editorChoice).1 env.brewFound "fnm")).app
        (caskDelta env env.brewFound "figma")).app
        (caskDelta env env.brewFound "notion")).app
        (caskDelta env env.brewFound "slack")).app
        (caskDelta env env.brewFound "google-chrome")).app
        (vscodeDelta env (selectedFlags env.editorChoice).2.2 env.brewFound)).app
        (cursorDelta env (selectedFlags env.editorChoice).2.1 env.brewFound)) := rfl

/-- Any step of the catalog-driven part comes from one of the eight catalog
entries, with the query that guarded it having failed whenever Homebrew was
present. -/
theorem mem_steps_buildDeltas {env : SetupEnv} {s : GoStep}
    (h : s ∈ (buildDeltas env).steps) :
    (∃ pkg, (pkg = "neovim" ∨ pkg = "fnm") ∧ s = formulaStep pkg ∧
      (env.brewFound = true → env.brewListOk ["list", pkg] = false)) ∨
    (∃ pkg, (pkg = "figma" ∨ pkg = "notion" ∨ pkg = "slack" ∨ pkg = "google-chrome") ∧
      s = caskStep pkg ∧
      (env.brewFound = true → env.brewListOk ["list", "--cask", pkg] = false ∧
        (pkg = "google-chrome" → env.chromeAppExists = false))) ∨
    (s = vscodeStep ∧ (selectedFlags env.editorChoice).2.2 = true ∧
      (env.brewFound = true → env.brewListOk ["list", "--cask", "visual-studio-code"] = false)) ∨
    (s = cursorStep ∧ (selectedFlags env.editorChoice).2.1 = true ∧
      (env.brewFound = true → env.brewListOk ["list", "--cask", "cursor"] = false)) := by
  rw [buildDeltas_eq] at h
  simp only [steps_app, List.mem_append, emptyBuild, List.not_mem_nil, false_or] at h
  rcases h with ((((((h | h) | h) | h) | h) | h) | h) | h
  · exact Or.inl ⟨"neovim", Or.inl rfl, mem_steps_normalDelta h⟩
  · exact Or.inl ⟨"fnm", Or.inr rfl, mem_steps_normalDelta h⟩
  · exact Or.inr (Or.inl ⟨"figma", by simp, (mem_steps_caskDelta h).1, fun hb =>
      ((mem_steps_caskDelta h).2 hb)⟩)
  · exact Or.inr (Or.inl ⟨"notion", by simp, (mem_steps_caskDelta h).1, fun hb =>
      ((mem_steps_caskDelta h).2 hb)⟩)
  · exact Or.inr (Or.inl ⟨"slack", by simp, (mem_steps_caskDelta h).1, fun hb =>
      ((mem_steps_caskDelta h).2 hb)⟩)
  · exact Or.inr (Or.inl ⟨"google-chrome", by simp, (mem_steps_caskDelta h).1, fun hb =>
      ((mem_steps_caskDelta h).2 hb)⟩)
  · exact Or.inr (Or.inr (Or.inl (mem_steps_vscodeDelta h)))
  · exact Or.inr (Or.inr (Or.inr (mem_steps_cursorDelta h)))

/-- With an empty plan, the loop never moves: the only reachable state is
the initial one (whose model is already done) and the trace stays empty. -/
theorem reach_empty {o : Oracle} {st : LoopState} {tr : List Ev}
    (h : Reach [] o st tr) : st = initLoopState [] ∧ tr = [] := by
  induction h with
  | init =>
      refine ⟨rfl, ?_⟩
      simp [initTrace, SetupModel.init, newSetupModel, launchesOf]
  | step h1 h2 ih =>
      obtain ⟨rfl, rfl⟩ := ih
      cases h2 with
      | exec j c msg hc hm hs =>
          simp [initLoopState, SetupModel.init, newSetupModel] at hc
      | execQuit j hc hs =>
          simp [initLoopState, SetupModel.init, newSetupModel] at hc

/-! ### Claim theorems -/

/-- C1: for every plan and every index `i`, the orchestrator launches the
background operation for step `i + 1` only after observing a no-error
completion event for step `i`, and at most one step's background operation
is in flight (pending) at any time. -/
theorem claim_C1_strict_sequencing :
    ∀ (steps : List GoStep) (o : Oracle) (st : LoopState) (tr : List Ev),
      Reach steps o st tr →
      (runsPending st.pending).length ≤ 1 ∧
      (∀ i a b, tr = a ++ Ev.launch (i + 1) :: b → Ev.complete i none ∈ a) := by
  intro steps o st tr h
  exact ⟨(reach_inv h).runs_le, (reach_inv h).launch_after⟩

/-- Witness for C1 at a concrete one-step plan and its initial state. -/
theorem claim_C1_strict_sequencing_witness :
    (runsPending (initLoopState demoSteps).pending).length ≤ 1 ∧
    (∀ i a b, initTrace demoSteps = a ++ Ev.launch (i + 1) :: b →
      Ev.complete i none ∈ a) :=
  claim_C1_strict_sequencing demoSteps demoOracle _ _ Reach.init

/-- C2: when a completion event for step `i` carries an error, the
orchestrator records the error — whose text contains the step's description
and the process's combined output — and no step is launched afterward. -/
theorem claim_C2_error_completion_fatal :
    ∀ (steps : List GoStep) (o : Oracle) (st : LoopState) (tr : List Ev),
      Reach steps o st tr →
      ∀ i e a b, tr = a ++ Ev.complete i (some e) :: b →
        (∀ j, Ev.launch j ∉ b) ∧
        st.model.err ≠ none ∧
        (∃ x y, e.data = x ++ (steps.getD i default).description.data ++ y) ∧
        (∃ ge out, o.res i = (some ge, out) ∧ ∃ u v, e.data = u ++ out.data ++ v) := by
  intro steps o st tr h i e a b hsplit
  have inv := reach_inv h
  have hmem : Ev.complete i (some e) ∈ tr := by
    rw [hsplit]
    exact List.mem_append_right _ (List.mem_cons_self _ _)
  obtain ⟨ge, out, hres, he⟩ := inv.err_content i e hmem
  refine ⟨inv.err_stops i e a b hsplit, inv.err_rec i e hmem, ?_, ?_⟩
  · refine ⟨"\"".data, ("\" failed: " ++ ge ++ " (" ++ out ++ ")").data, ?_⟩
    rw [he]
    simp [cmdFailText, String.data_append, List.append_assoc]
  · refine ⟨ge, out, hres,
      ("\"" ++ (steps.getD i default).description ++ "\" failed: " ++ ge ++ " (").data,
      ")".data, ?_⟩
    rw [he]
    simp [cmdFailText, String.data_append, List.append_assoc]

/-- Witness for C2: a concrete run in which the single step fails. -/
theorem claim_C2_error_completion_fatal_witness :
    c2State.model.err ≠ none ∧ (∀ j, Ev.launch j ∉ ([] : List Ev)) := by
  have hreach : Reach demoSteps failOracle c2State c2Trace :=
    Reach.step Reach.init
      (LoopStep.exec (initLoopState demoSteps) 1 (TCmd.run (formulaStep "fnm") 0) c2Msg
        (by decide) rfl rfl)
  have happ := claim_C2_error_completion_fatal demoSteps failOracle c2State c2Trace hreach
    0 c2ErrText [Ev.launch 0] [] (by decide)
  exact ⟨happ.2.1, happ.1⟩

/-- C3: an empty plan makes `Init` report completion at once without
scheduling anything; no launch ever occurs in a run over it; and a catalog
with everything already satisfied builds an empty plan. -/
theorem claim_C3_empty_plan :
    ((newSetupModel []).init.model.done = true ∧ (newSetupModel []).init.cmds = []) ∧
    (∀ (o : Oracle) (st : LoopState) (tr : List Ev), Reach [] o st tr →
      st.model.done = true ∧ ∀ i, Ev.launch i ∉ tr) ∧
    (∀ env : SetupEnv, env.brewFound = true → (∀ q, env.brewListOk q = true) →
      env.chromeAppExists = true → (buildSetup env).steps = []) := by
  refine ⟨⟨rfl, rfl⟩, ?_, ?_⟩
  · intro o st tr h
    obtain ⟨rfl, rfl⟩ := reach_empty h
    exact ⟨rfl, by intro i; simp⟩
  · intro env hb hlist hchrome
    rcases hflags : selectedFlags env.editorChoice with ⟨sn, sc, sv⟩
    cases sn <;> cases sc <;> cases sv <;>
      simp [buildSetup, buildStart, buildDeltas, hflags, BuildOut.app, emptyBuild,
        normalInstallations, caskInstallations, normalDelta, caskDelta, vscodeDelta,
        cursorDelta, hb, hlist, hchrome]

/-- Witness for C3: the all-satisfied demo environment and the empty run. -/
theorem claim_C3_empty_plan_witness :
    ((initLoopState []).model.done = true) ∧ (buildSetup demoEnvAllSat).steps = [] :=
  ⟨(claim_C3_empty_plan.2.1 demoOracle _ _ Reach.init).1,
    claim_C3_empty_plan.2.2 demoEnvAllSat rfl (fun _ => rfl) rfl⟩

/-- C4: when Homebrew is absent at build time, the plan's first three steps
are exactly the bootstrap triplet {install, configure-profile,
evaluate-environment} in that order, and everything after them is a
catalog-driven `brew install` step. -/
theorem claim_C4_bootstrap_triplet_first :
    ∀ env : SetupEnv, env.brewFound = false →
      (buildSetup env).steps.take 3 =
        [brewInstallStep, brewProfileStep (profilePath env.homeDir), brewEvalStep] ∧
      ∀ s ∈ (buildSetup env).steps.drop 3,
        s.command = "brew" ∧ s.args.head? = some "install" := by
  intro env hb
  have hstart : (buildStart env).steps = bootstrapSteps (profilePath env.homeDir) := by
    simp [buildStart, hb]
  have hsteps : (buildSetup env).steps =
      bootstrapSteps (profilePath env.homeDir) ++ (buildDeltas env).steps := by
    rw [buildSetup, steps_app, hstart]
  constructor
  · rw [hsteps]
    rfl
  · intro s hs
    rw [hsteps] at hs
    have hmem : s ∈ (buildDeltas env).steps := hs
    rcases mem_steps_buildDeltas hmem with ⟨pkg, _, rfl, _⟩ | ⟨pkg, _, rfl, _⟩ |
      ⟨rfl, _, _⟩ | ⟨rfl, _, _⟩
    · exact ⟨rfl, rfl⟩
    · exact ⟨rfl, rfl⟩
    · exact ⟨rfl, rfl⟩
    · exact ⟨rfl, rfl⟩

/-- Witness for C4 at the demo environment without Homebrew. -/
theorem claim_C4_bootstrap_triplet_first_witness :
    (buildSetup demoEnv).steps.take 3 =
      [brewInstallStep, brewProfileStep (profilePath demoEnv.homeDir), brewEvalStep] ∧
    ∀ s ∈ (buildSetup demoEnv).steps.drop 3,
      s.command = "brew" ∧ s.args.head? = some "install" :=
  claim_C4_bootstrap_triplet_first demoEnv rfl

/-- Any step in a built plan whose description is the Homebrew bootstrap
install description is the bootstrap install step itself, present only when
Homebrew was absent. -/
theorem plan_step_homebrew_desc {env : SetupEnv} {s : GoStep}
    (hs : s ∈ (buildSetup env).steps) :
    (s.description = "Instalando Homebrew..." ↔
      env.brewFound = false ∧ s = brewInstallStep) := by
  rw [buildSetup, steps_app] at hs
  constructor
  · intro hdesc
    rcases List.mem_append.mp hs with h | h
    · obtain ⟨hb, hmem⟩ := mem_steps_buildStart h
      simp only [bootstrapSteps, List.mem_cons, List.not_mem_nil, or_false] at hmem
      rcases hmem with rfl | rfl | rfl
      · exact ⟨hb, rfl⟩
      · rw [show (brewProfileStep (profilePath env.homeDir)).description =
            "Configurando Homebrew..." from rfl] at hdesc
        exact absurd hdesc (by decide)
      · exact absurd hdesc (by decide)
    · exfalso
      rcases mem_steps_buildDeltas h with ⟨pkg, hpkg, rfl, _⟩ | ⟨pkg, hpkg, rfl, _⟩ |
        ⟨rfl, _, _⟩ | ⟨rfl, _, _⟩
      · rcases hpkg with rfl | rfl <;> exact absurd hdesc (by decide)
      · rcases hpkg with rfl | rfl | rfl | rfl <;> exact absurd hdesc (by decide)
      · exact absurd hdesc (by decide)
      · exact absurd hdesc (by decide)
  · rintro ⟨_, rfl⟩
    rfl

/-- C9: exactly the bootstrap install step (the one with the Homebrew
install description) runs its process with `NONINTERACTIVE=1` appended to
the inherited environment; every other plan step runs with the unmodified
inherited environment. -/
theorem claim_C9_noninteractive_env :
    ∀ (env : SetupEnv) (base : List String) (s : GoStep),
      s ∈ (buildSetup env).steps →
      ((env.brewFound = false ∧ s = brewInstallStep) →
        commandEnv base s = base ++ ["NONINTERACTIVE=1"]) ∧
      (¬(env.brewFound = false ∧ s = brewInstallStep) →
        commandEnv base s = base) := by
  intro env base s hs
  constructor
  · rintro ⟨_, rfl⟩
    rfl
  · intro hns
    have hdesc : ¬ s.description = "Instalando Homebrew..." := by
      intro hd
      exact hns ((plan_step_homebrew_desc hs).mp hd)
    simp [commandEnv, hdesc]

/-- Witness for C9: the bootstrap install step of the demo plan gets the
extra variable; the profile step does not. -/
theorem claim_C9_noninteractive_env_witness :
    commandEnv demoBaseEnv brewInstallStep = demoBaseEnv ++ ["NONINTERACTIVE=1"] ∧
    commandEnv demoBaseEnv (brewProfileStep (profilePath demoEnv.homeDir)) = demoBaseEnv := by
  constructor
  · exact (claim_C9_noninteractive_env demoEnv demoBaseEnv brewInstallStep
      (by decide)).1 ⟨rfl, rfl⟩
  · exact (claim_C9_noninteractive_env demoEnv demoBaseEnv
      (brewProfileStep (profilePath demoEnv.homeDir)) (by decide)).2 (by decide)

/-! ### Notice-placement helpers for the Plan Builder -/

theorem buildStart_steps_of_found {env : SetupEnv} (hb : env.brewFound = true) :
    (buildStart env).steps = [] := by
  simp [buildStart, hb]

theorem mem_notices_deltaNeovim {env : SetupEnv} {n : String}
    (h : n ∈ (normalDelta env (selectedFlags env.editorChoice).1 env.brewFound "neovim").notices) :
    n ∈ (buildSetup env).notices :=
  mem_notices_app_right (mem_notices_app_left (mem_notices_app_left (mem_notices_app_left
    (mem_notices_app_left (mem_notices_app_left (mem_notices_app_left
      (mem_notices_app_left (mem_notices_app_right h))))))))

theorem mem_notices_deltaFnm {env : SetupEnv} {n : String}
    (h : n ∈ (normalDelta env (selectedFlags env.editorChoice).1 env.brewFound "fnm").notices) :
    n ∈ (buildSetup env).notices :=
  mem_notices_app_right (mem_notices_app_left (mem_notices_app_left (mem_notices_app_left
    (mem_notices_app_left (mem_notices_app_left (mem_notices_app_left
      (mem_notices_app_right h)))))))

theorem mem_notices_deltaFigma {env : SetupEnv} {n : String}
    (h : n ∈ (caskDelta env env.brewFound "figma").notices) :
    n ∈ (buildSetup env).notices :=
  mem_notices_app_right (mem_notices_app_left (mem_notices_app_left (mem_notices_app_left
    (mem_notices_app_left (mem_notices_app_left (mem_notices_app_right h))))))

theorem mem_notices_deltaNotion {env : SetupEnv} {n : String}
    (h : n ∈ (caskDelta env env.brewFound "notion").notices) :
    n ∈ (buildSetup env).notices :=
  mem_notices_app_right (mem_notices_app_left (mem_notices_app_left (mem_notices_app_left
    (mem_notices_app_left (mem_notices_app_right h)))))

theorem mem_notices_deltaSlack {env : SetupEnv} {n : String}
    (h : n ∈ (caskDelta env env.brewFound "slack").notices) :
    n ∈ (buildSetup env).notices :=
  mem_notices_app_right (mem_notices_app_left (mem_notices_app_left
    (mem_notices_app_left (mem_notices_app_right h))))

theorem mem_notices_deltaChrome {env : SetupEnv} {n : String}
    (h : n ∈ (caskDelta env env.brewFound "google-chrome").notices) :
    n ∈ (buildSetup env).notices :=
  mem_notices_app_right (mem_notices_app_left (mem_notices_app_left
    (mem_notices_app_right h)))

theorem mem_notices_deltaVscode {env : SetupEnv} {n : String}
    (h : n ∈ (vscodeDelta env (selectedFlags env.editorChoice).2.2 env.brewFound).notices) :
    n ∈ (buildSetup env).notices :=
  mem_notices_app_right (mem_notices_app_left (mem_notices_app_right h))

theorem mem_notices_deltaCursor {env : SetupEnv} {n : String}
    (h : n ∈ (cursorDelta env (selectedFlags env.editorChoice).2.1 env.brewFound).notices) :
    n ∈ (buildSetup env).notices :=
  mem_notices_app_right (mem_notices_app_right h)

/-- C5: when Homebrew is present, no entry whose build-time idempotency
check reported satisfied (its `brew list` query succeeded, or the Google
Chrome application bundle exists) contributes a step to the plan, and an
"already installed" notice is emitted for it instead. -/
theorem claim_C5_no_redundant_installs :
    ∀ env : SetupEnv, env.brewFound = true →
      (∀ pkg, (pkg = "neovim" ∨ pkg = "fnm") →
        (pkg = "neovim" → (selectedFlags env.editorChoice).1 = true) →
        env.brewListOk ["list", pkg] = true →
        formulaStep pkg ∉ (buildSetup env).steps ∧
        alreadyInstalled pkg ∈ (buildSetup env).notices) ∧
      (∀ pkg, (pkg = "figma" ∨ pkg = "notion" ∨ pkg = "slack" ∨ pkg = "google-chrome") →
        ((pkg = "google-chrome" ∧ env.chromeAppExists = true) ∨
          env.brewListOk ["list", "--cask", pkg] = true) →
        caskStep pkg ∉ (buildSetup env).steps ∧
        alreadyInstalled pkg ∈ (buildSetup env).notices) ∧
      ((selectedFlags env.editorChoice).2.2 = true →
        env.brewListOk ["list", "--cask", "visual-studio-code"] = true →
        vscodeStep ∉ (buildSetup env).steps ∧
        alreadyInstalled "vscode" ∈ (buildSetup env).notices) ∧
      ((selectedFlags env.editorChoice).2.1 = true →
        env.brewListOk ["list", "--cask", "cursor"] = true →
        cursorStep ∉ (buildSetup env).steps ∧
        alreadyInstalled "cursor.ai" ∈ (buildSetup env).notices) := by
  intro env hb
  have hnostart : ∀ s : GoStep, s ∈ (buildSetup env).steps → s ∈ (buildDeltas env).steps := by
    intro s hs
    rw [buildSetup, steps_app, buildStart_steps_of_found hb] at hs
    simpa using hs
  refine ⟨?_, ?_, ?_, ?_⟩
  · intro pkg hpkg hsel hlist
    constructor
    · intro hmem
      rcases mem_steps_buildDeltas (hnostart _ hmem) with ⟨pkg', hpkg', heq, hq⟩ |
        ⟨pkg', hpkg', heq, _⟩ | ⟨heq, _, _⟩ | ⟨heq, _, _⟩
      · have hpp : pkg = pkg' := by
          simpa [formulaStep, installingDescription, installing] using congrArg GoStep.args heq
        rw [← hpp] at hq
        rw [hq hb] at hlist
        cases hlist
      · rcases hpkg with rfl | rfl <;> rcases hpkg' with rfl | rfl | rfl | rfl <;>
          exact absurd heq (by decide)
      · rcases hpkg with rfl | rfl <;> exact absurd heq (by decide)
      · rcases hpkg with rfl | rfl <;> exact absurd heq (by decide)
    · rcases hpkg with rfl | rfl
      · refine mem_notices_deltaNeovim ?_
        simp [normalDelta, hb, hlist, hsel rfl]
      · refine mem_notices_deltaFnm ?_
        simp [normalDelta, hb, hlist]
  · intro pkg hpkg hsat
    constructor
    · intro hmem
      rcases mem_steps_buildDeltas (hnostart _ hmem) with ⟨pkg', hpkg', heq, _⟩ |
        ⟨pkg', hpkg', heq, hq⟩ | ⟨heq, _, _⟩ | ⟨heq, _, _⟩
      · rcases hpkg with rfl | rfl | rfl | rfl <;> rcases hpkg' with rfl | rfl <;>
          exact absurd heq (by decide)
      · have hpp : pkg = pkg' := by
          simpa [caskStep, installingDescription, installing] using congrArg GoStep.args heq
        rw [← hpp] at hq
        rcases hsat with ⟨rfl, happ⟩ | hlist
        · rw [(hq hb).2 rfl] at happ
          cases happ
        · rw [(hq hb).1] at hlist
          cases hlist
      · rcases hpkg with rfl | rfl | rfl | rfl <;> exact absurd heq (by decide)
      · rcases hpkg with rfl | rfl | rfl | rfl <;> exact absurd heq (by decide)
    · rcases hpkg with rfl | rfl | rfl | rfl
      · refine mem_notices_deltaFigma ?_
        rcases hsat with ⟨hf, _⟩ | hlist
        · exact absurd hf (by decide)
        · simp [caskDelta, hb, hlist]
      · refine mem_notices_deltaNotion ?_
        rcases hsat with ⟨hf, _⟩ | hlist
        · exact absurd hf (by decide)
        · simp [caskDelta, hb, hlist]
      · refine mem_notices_deltaSlack ?_
        rcases hsat with ⟨hf, _⟩ | hlist
        · exact absurd hf (by decide)
        · simp [caskDelta, hb, hlist]
      · refine mem_notices_deltaChrome ?_
        rcases hsat with ⟨_, happ⟩ | hlist
        · simp [caskDelta, hb, happ]
        · by_cases happ : env.chromeAppExists = true
          · simp [caskDelta, hb, happ]
          · simp only [Bool.not_eq_true] at happ
            simp [caskDelta, hb, happ, hlist]
  · intro hsel hlist
    constructor
    · intro hmem
      rcases mem_steps_buildDeltas (hnostart _ hmem) with ⟨pkg', hpkg', heq, _⟩ |
        ⟨pkg', hpkg', heq, _⟩ | ⟨_, _, hq⟩ | ⟨heq, _, _⟩
      · rcases hpkg' with rfl | rfl <;> exact absurd heq (by decide)
      · rcases hpkg' with rfl | rfl | rfl | rfl <;> exact absurd heq (by decide)
      · rw [hq hb] at hlist
        cases hlist
      · exact absurd heq (by decide)
    · refine mem_notices_deltaVscode ?_
      simp [vscodeDelta, hb, hlist, hsel]
  · intro hsel hlist
    constructor
    · intro hmem
      rcases mem_steps_buildDeltas (hnostart _ hmem) with ⟨pkg', hpkg', heq, _⟩ |
        ⟨pkg', hpkg', heq, _⟩ | ⟨heq, _, _⟩ | ⟨_, _, hq⟩
      · rcases hpkg' with rfl | rfl <;> exact absurd heq (by decide)
      · rcases hpkg' with rfl | rfl | rfl | rfl <;> exact absurd heq (by decide)
      · exact absurd heq (by decide)
      · rw [hq hb] at hlist
        cases hlist
    · refine mem_notices_deltaCursor ?_
      simp [cursorDelta, hb, hlist, hsel]

/-- Witness for C5: in the all-satisfied demo environment, `fnm` is skipped
with a notice and contributes no step. -/
theorem claim_C5_no_redundant_installs_witness :
    formulaStep "fnm" ∉ (buildSetup demoEnvAllSat).steps ∧
    alreadyInstalled "fnm" ∈ (buildSetup demoEnvAllSat).notices :=
  (claim_C5_no_redundant_installs demoEnvAllSat rfl).1 "fnm" (Or.inr rfl)
    (by decide) rfl

/-- C6: the idempotency check queries the package manager's installed list
scoped by the entry's category — `--cask` exactly for cask entries, no flag
for formulae — and the install step or invocation for an unsatisfied entry
uses the install verb with that same category flag; both for
`downloadAndInstall` and for `SetupCmd`'s catalog loops. -/
theorem claim_C6_category_scoped_check :
    (∀ (env : PkgEnv) (pkg : Package), pkg.disabled = false →
      ¬(pkg.brewName = "google-chrome" ∧ env.chromeAppExists = true) →
      ((downloadAndInstall env pkg).1.head? =
        some (["list"] ++ (if pkg.kind = .cask then ["--cask"] else []) ++ [pkg.brewName])) ∧
      (env.runOk (["list"] ++ (if pkg.kind = .cask then ["--cask"] else []) ++
          [pkg.brewName]) = false →
        (downloadAndInstall env pkg).1 =
          [["list"] ++ (if pkg.kind = .cask then ["--cask"] else []) ++ [pkg.brewName],
           ["install"] ++ (if pkg.kind = .cask then ["--cask"] else []) ++ [pkg.brewName]])) ∧
    (∀ (env : SetupEnv) (sel bi : Bool) (pkg : String),
      (∀ q ∈ (normalDelta env sel bi pkg).queries, q = ["list", pkg]) ∧
      (∀ s ∈ (normalDelta env sel bi pkg).steps, s.args = ["install", pkg]) ∧
      (∀ q ∈ (caskDelta env bi pkg).queries, q = ["list", "--cask", pkg]) ∧
      (∀ s ∈ (caskDelta env bi pkg).steps, s.args = ["install", "--cask", pkg])) := by
  constructor
  · intro env pkg hdis hchrome
    have hc2 : (decide (pkg.brewName = "google-chrome") && env.chromeAppExists) = false := by
      cases hx : decide (pkg.brewName = "google-chrome")
      · simp
      · cases hy : env.chromeAppExists
        · simp
        · exact absurd ⟨of_decide_eq_true hx, hy⟩ hchrome
    simp only [downloadAndInstall, hdis, hc2, Bool.false_eq_true, if_false]
    generalize (if pkg.kind = BrewPackageType.cask then (["--cask"] : List String) else []) = L
    split_ifs with hrun
    · refine ⟨rfl, ?_⟩
      intro hfalse
      rw [hfalse] at hrun
      cases hrun
    · rcases hco : env.combinedOutput (["install"] ++ L ++ [pkg.brewName]) with ⟨er, out⟩
      cases er <;> simp [hco]
  · intro env sel bi pkg
    refine ⟨?_, ?_, ?_, ?_⟩
    · intro q hq
      unfold normalDelta at hq
      split_ifs at hq <;> simp_all
    · intro s hs
      have := (mem_steps_normalDelta hs).1
      rw [this]
      rfl
    · intro q hq
      unfold caskDelta at hq
      split_ifs at hq <;> simp_all
    · intro s hs
      have := (mem_steps_caskDelta hs).1
      rw [this]
      rfl

/-- Witness for C6: the demo cask package with nothing installed. -/
theorem claim_C6_category_scoped_check_witness :
    (downloadAndInstall demoPkgEnv demoPkg).1 =
      [["list", "--cask", "figma"], ["install", "--cask", "figma"]] :=
  (claim_C6_category_scoped_check.1 demoPkgEnv demoPkg rfl (by decide)).2 rfl

/-- C7 (divergence): at a no-error completion of a catalog-driven install
step — here the `neovim` step with description `installingDescription
"neovim"` — `Update` prints no success line at all, because its guard
requires the literal description prefix `"▶ Instalando "`, which
`installingDescription` never produces. -/
theorem claim_C7_success_notice_never_printed :
    (c7Model.update (.result 0 none)).prints = [] ∧
    goHasPre (installingDescription "neovim") "▶ Instalando " = false ∧
    successPrints c7Model = [] := by
  decide

/-- C8 counterexample: on a non-darwin platform, `SetupCmd.Run` prints a
message and returns — the process exits with status 0, not non-zero. -/
theorem claim_C8_exit_status_cex :
    c8CexEnv.goos ≠ "darwin" ∧ (setupCmdRun c8CexEnv).exitCode = 0 ∧
    (setupCmdRun c8CexEnv).planBuilt = false := by
  decide

/-- C8 (amended): on a platform-precondition failure the program returns
early — exit status 0, no plan built; after an orchestrator run the exit
status is 0 whether it ended in Done or Failed; the only non-zero exit is
status 1 when the terminal program itself fails to run. -/
theorem claim_C8_exit_behavior :
    ∀ env : SetupEnv,
      (env.goos ≠ "darwin" → setupCmdRun env = { exitCode := 0, planBuilt := false }) ∧
      ((setupCmdRun env).exitCode = 0 ∨ (setupCmdRun env).exitCode = 1) ∧
      ((setupCmdRun env).exitCode = 1 ↔
        env.goos = "darwin" ∧ env.selectEditorError = false ∧ env.editorChoice ≠ "" ∧
          env.userError = false ∧ env.teaRunError = true) := by
  intro env
  unfold setupCmdRun
  split_ifs with h1 h2 h3 h4 h5 <;> simp_all

/-- Witness for C8 (amended) at the non-darwin environment. -/
theorem claim_C8_exit_behavior_witness :
    setupCmdRun c8CexEnv = { exitCode := 0, planBuilt := false } :=
  (claim_C8_exit_behavior c8CexEnv).1 (by decide)

/-- C10: `Editor.Set` succeeds and sets the receiver exactly for the five
allowed editor identifiers; any other value produces an error and leaves
the receiver unchanged. -/
theorem claim_C10_editor_set :
    ∀ current value : String,
      (value ∈ AllowedEditors ↔
        value = "vscode" ∨ value = "nvim" ∨ value = "cursor" ∨ value = "xcode" ∨
          value = "none") ∧
      (value ∈ AllowedEditors → editorSet current value = (value, none)) ∧
      (value ∉ AllowedEditors →
        editorSet current value = (current, some editorSetErrText)) := by
  intro current value
  refine ⟨by simp [AllowedEditors], ?_, ?_⟩
  · intro h
    simp [editorSet, h]
  · intro h
    simp [editorSet, h]

/-- Witness for C10: an accepted and a rejected value. -/
theorem claim_C10_editor_set_witness :
    editorSet "nvim" "vscode" = ("vscode", none) ∧
    editorSet "nvim" "emacs" = ("nvim", some editorSetErrText) :=
  ⟨(claim_C10_editor_set "nvim" "vscode").2.1 (by decide),
   (claim_C10_editor_set "nvim" "emacs").2.2 (by decide)⟩

end Paisanos
